import Mathlib

/-!
Verification of the Kbus transit backend (`transport/views.py`) against its
specification.  The geospatial / fare / trip-accounting core of the Django app
is shallowly embedded here:

* Python `float` arithmetic is modelled by real arithmetic on `ℝ`;
  `math.sin`, `math.cos`, `math.sqrt`, `math.atan2`, `math.radians` become
  their exact counterparts on `ℝ`.
* Python `decimal.Decimal` values are modelled as pairs of a rational value
  and a decimal exponent (`Dec` below); `Decimal(str(x))` is value-exact for
  every float `x`, so the numeric content of a `Decimal` is a rational.
* Django ORM rows become Lean structures; a queryset that the view orders
  (`order_by('order', 'id')`) becomes an explicit ordered `List`.
* Optional / nullable fields become `Option`.
-/

namespace Kbus

/-- Python `math.atan2 y x`: the angle of the point `(x, y)`, in `(-π, π]`.
Modelled piecewise from the C library semantics on real (non-NaN) inputs. -/
noncomputable def atan2 (y x : ℝ) : ℝ :=
  if 0 < x then Real.arctan (y / x)
  else if x < 0 then
    (if 0 ≤ y then Real.arctan (y / x) + Real.pi else Real.arctan (y / x) - Real.pi)
  else
    (if 0 < y then Real.pi / 2 else if y < 0 then -(Real.pi / 2) else 0)

/-- The haversine-formula intermediate `a` of `distance_meters` in
`transport/views.py` (the local variables `phi1`, `phi2`, `dphi`, `dlambda`
inlined; `math.radians t = t * π / 180`). -/
noncomputable def hav (lat1 lon1 lat2 lon2 : ℝ) : ℝ :=
  Real.sin ((lat2 - lat1) * Real.pi / 180 / 2) ^ 2 +
    Real.cos (lat1 * Real.pi / 180) * Real.cos (lat2 * Real.pi / 180) *
      Real.sin ((lon2 - lon1) * Real.pi / 180 / 2) ^ 2

/-- `distance_meters(lat1, lon1, lat2, lon2)` from `transport/views.py`:
great-circle distance by the haversine formula with Earth radius 6371000 m. -/
noncomputable def distance_meters (lat1 lon1 lat2 lon2 : ℝ) : ℝ :=
  6371000 * (2 * atan2 (Real.sqrt (hav lat1 lon1 lat2 lon2))
    (Real.sqrt (1 - hav lat1 lon1 lat2 lon2)))

lemma arctan_nonneg {t : ℝ} (ht : 0 ≤ t) : 0 ≤ Real.arctan t :=
  Real.arctan_zero ▸ Real.arctan_strictMono.monotone ht

lemma atan2_nonneg {y x : ℝ} (hy : 0 ≤ y) : 0 ≤ atan2 y x := by
  unfold atan2
  by_cases hx : 0 < x
  · rw [if_pos hx]
    exact arctan_nonneg (div_nonneg hy hx.le)
  · rw [if_neg hx]
    by_cases hx' : x < 0
    · rw [if_pos hx', if_pos hy]
      have h := Real.neg_pi_div_two_lt_arctan (y / x)
      have hpi := Real.pi_pos
      linarith
    · rw [if_neg hx']
      by_cases hy2 : 0 < y
      · rw [if_pos hy2]
        have hpi := Real.pi_pos
        linarith
      · rw [if_neg hy2, if_neg (not_lt.mpr hy)]

lemma atan2_zero_one : atan2 0 1 = 0 := by
  unfold atan2
  rw [if_pos one_pos]
  simp [Real.arctan_zero]

lemma hav_self (lat lon : ℝ) : hav lat lon lat lon = 0 := by
  unfold hav
  simp

lemma hav_comm (lat1 lon1 lat2 lon2 : ℝ) :
    hav lat2 lon2 lat1 lon1 = hav lat1 lon1 lat2 lon2 := by
  unfold hav
  have h1 : (lat1 - lat2) * Real.pi / 180 / 2 = -((lat2 - lat1) * Real.pi / 180 / 2) := by ring
  have h2 : (lon1 - lon2) * Real.pi / 180 / 2 = -((lon2 - lon1) * Real.pi / 180 / 2) := by ring
  rw [h1, h2, Real.sin_neg, Real.sin_neg, neg_sq, neg_sq, mul_comm (Real.cos (lat2 * Real.pi / 180))]

lemma distance_meters_self (lat lon : ℝ) : distance_meters lat lon lat lon = 0 := by
  unfold distance_meters
  rw [hav_self]
  norm_num [atan2_zero_one]

lemma distance_meters_comm (lat1 lon1 lat2 lon2 : ℝ) :
    distance_meters lat2 lon2 lat1 lon1 = distance_meters lat1 lon1 lat2 lon2 := by
  unfold distance_meters
  rw [hav_comm]

lemma distance_meters_nonneg (lat1 lon1 lat2 lon2 : ℝ) :
    0 ≤ distance_meters lat1 lon1 lat2 lon2 := by
  unfold distance_meters
  have h := atan2_nonneg (x := Real.sqrt (1 - hav lat1 lon1 lat2 lon2))
    (Real.sqrt_nonneg (hav lat1 lon1 lat2 lon2))
  positivity

/-- A `Stop` row of `transport/models.py`, restricted to the fields the
geospatial core reads (`route` is implicit: every function below receives a
stop list already filtered to one route, as the views' querysets do). -/
structure Stop where
  id : ℕ
  name : String
  order : ℤ
  latitude : ℝ
  longitude : ℝ

/-- Great-circle distance between two stops (the views always call
`distance_meters` on stop coordinate fields). -/
noncomputable def dpt (a b : Stop) : ℝ :=
  distance_meters a.latitude a.longitude b.latitude b.longitude

/-- A Python `decimal.Decimal` value: its exact numeric value together with
its decimal exponent (`Decimal('10')` is `⟨10, 0⟩`, `Decimal('10.00')` is
`⟨10, -2⟩`; the two are numerically equal but render differently and compare
unequal under `quantize` inspection). -/
structure Dec where
  val : ℚ
  exp : ℤ
  deriving DecidableEq

/-- Python `round`-to-integer with banker's rounding (ROUND_HALF_EVEN), the
default `decimal` context rounding used by `Decimal.quantize`. -/
def roundHalfEven (x : ℚ) : ℤ :=
  if x - ⌊x⌋ < 1/2 then ⌊x⌋
  else if 1/2 < x - ⌊x⌋ then ⌊x⌋ + 1
  else if Even ⌊x⌋ then ⌊x⌋ else ⌊x⌋ + 1

/-- `d.quantize(Decimal('0.01'))`: round the value to a multiple of 1/100
(half-even) and set the exponent to -2. -/
def quantize01 (v : ℚ) : Dec :=
  ⟨(roundHalfEven (v * 100) : ℚ) / 100, -2⟩

/-- `_fare_from_distance_m(distance_m)` from `transport/views.py`.

The argument models `Decimal(str(distance_m))`: `none` when that conversion
raises (malformed input, caught by the `try/except`), `some` of the exact
rational value otherwise.  `Decimal(str(x))` is value-exact for floats, and
division by `Decimal('1000')` is exact at the magnitudes involved (≤ 17
significant digits against a 28-digit context), so `km` is the rational
`dm / 1000`.  `extra_km.to_integral_value(rounding=ROUND_CEILING)` is the
ceiling.  Note the base-fare branches return `Decimal('10')` (exponent 0)
without quantizing; only the extra-distance branch quantizes to `0.01`. -/
def fare_from_distance_m (d : Option ℚ) : Dec :=
  let base_km : ℚ := 5/2
  let base_fare : Dec := ⟨10, 0⟩
  match d with
  | none => base_fare
  | some dm =>
    let km := dm / 1000
    if km ≤ base_km then base_fare
    else
      let extra_units : ℤ := ⌈km - base_km⌉
      quantize01 (10 + extra_units)

/-- `_estimate_speed_mps(prev_lat, prev_lng, prev_time, lat, lng, now_time)`
from `transport/views.py`.  The previous reading is `none` when any of
`prev_lat`/`prev_lng`/`prev_time` is `None`; timestamps are seconds on a
common clock, so `(now_time - prev_time).total_seconds()` is `now - pt`
(exact subtraction of valid datetimes cannot raise, so the `try/except`
around it is dead and not modelled). -/
noncomputable def estimate_speed_mps (prev : Option (ℝ × ℝ × ℝ)) (lat lng now : ℝ) : ℝ :=
  match prev with
  | none => 0
  | some (plat, plng, pt) =>
    let dt := now - pt
    if dt ≤ 0.5 ∨ 120 < dt then 0
    else
      let d := distance_meters plat plng lat lng
      if d < 0 then 0 else d / dt

/-- The speed actually stored by `update_bus_location` in
`transport/views.py`: the supplied speed is clamped at 0 from below
(`if speed_f < 0: speed_f = 0.0`; an absent `speed` field defaults to 0), and
when it is ≤ 0 and a previous live-location row exists the estimator runs;
with no previous row a non-positive speed is stored as 0. -/
noncomputable def storedSpeed (supplied : ℝ) (prev : Option (ℝ × ℝ × ℝ))
    (lat lng now : ℝ) : ℝ :=
  let s := if supplied < 0 then 0 else supplied
  match prev with
  | none => if s ≤ 0 then 0 else s
  | some p => if s ≤ 0 then estimate_speed_mps (some p) lat lng now else s

/-- One step of the nearest-stop linear scan in `update_bus_location`
(`transport/views.py`): the accumulator holds `(nearest_stop, nearest_dist)`,
replaced when `dist < nearest_dist` (strict, so the first minimum wins). -/
noncomputable def nearestStep (lat lng : ℝ) (acc : Option (Stop × ℝ)) (stop : Stop) :
    Option (Stop × ℝ) :=
  let dist := distance_meters lat lng stop.latitude stop.longitude
  match acc with
  | none => some (stop, dist)
  | some (bs, bd) => if dist < bd then some (stop, dist) else some (bs, bd)

/-- The nearest-stop scan of `update_bus_location`: fold of `nearestStep` over
the route's stops starting from `(None, None)`. -/
noncomputable def nearestStop (stops : List Stop) (lat lng : ℝ) : Option (Stop × ℝ) :=
  stops.foldl (nearestStep lat lng) none

/-- The `current_stop` update at the end of `update_bus_location`: returns the
new `current_stop` value and whether a write (`bus.save`) happened.  The field
is written only when the nearest stop is strictly closer than 50 m and its
name differs from the stored value. -/
noncomputable def updateCurrentStop (stops : List Stop) (lat lng : ℝ)
    (cur : Option String) : Option String × Bool :=
  match nearestStop stops lat lng with
  | none => (cur, false)
  | some (s, d) =>
    if d < 50 then
      (if cur ≠ some s.name then (some s.name, true) else (cur, false))
    else (cur, false)

/-- The `prev = next_stop; for s in remaining_stops[1:]: path += dist(prev, s)`
loop shared by `_route_remaining_distance_m`: sum of great-circle distances
walking from `prev` through the list in order. -/
noncomputable def railSum : Stop → List Stop → ℝ
  | _, [] => 0
  | prev, s :: rest => dpt prev s + railSum s rest

/-- Sum of great-circle distances between each adjacent pair of a stop list
(0 for the empty and singleton lists). -/
noncomputable def consecSum : List Stop → ℝ
  | [] => 0
  | a :: rest => railSum a rest

/-- The `current` search of `_route_remaining_distance_m`: Python's
`if bus.current_stop:` treats both `None` and the empty string as falsy, then
the first stop whose name equals `bus.current_stop` is taken. -/
def findCurrent (stops : List Stop) (cur : Option String) : Option Stop :=
  match cur with
  | none => none
  | some nm => if nm = "" then none else stops.find? (fun s => s.name == nm)

/-- `_route_remaining_distance_m(bus, lat, lng)` from `transport/views.py`,
returning `(next_stop, distance_to_next_m, remaining_path_m)`.  `stops` is the
queryset `Stop.objects.filter(route=bus.route).order_by('order', 'id')` as an
ordered list; `cur` is `bus.current_stop`. -/
noncomputable def route_remaining_distance_m (stops : List Stop) (cur : Option String)
    (lat lng : ℝ) : Option Stop × Option ℝ × Option ℝ :=
  match stops with
  | [] => (none, none, none)
  | s0 :: _ =>
    match findCurrent stops cur with
    | none =>
      let remaining := distance_meters lat lng s0.latitude s0.longitude
      (some s0, some remaining, some remaining)
    | some c =>
      match stops.filter (fun s => decide (c.order < s.order)) with
      | [] => (none, some 0, some 0)
      | next :: rest =>
        let dist_to_next := distance_meters lat lng next.latitude next.longitude
        (some next, some dist_to_next, some (dist_to_next + railSum next rest))

/-- The dict lookup `{s.id: i for i, s in enumerate(stops)}.get(sid)` of
`_route_path_distance_m`: the index of the last stop carrying id `sid`
(a dict comprehension keeps the last binding per key), `none` when absent. -/
def idToIndexAux (sid : ℕ) : List Stop → ℕ → Option ℕ
  | [], _ => none
  | s :: rest, k =>
    match idToIndexAux sid rest (k + 1) with
    | some j => some j
    | none => if s.id = sid then some k else none

/-- Index of the (last) stop with id `sid` in `stops`. -/
def idToIndex (stops : List Stop) (sid : ℕ) : Option ℕ :=
  idToIndexAux sid stops 0

/-- A placeholder stop used only as the default of out-of-range `List.getD`
reads; every index actually read below is in range. -/
def stop0 : Stop := ⟨0, "", 0, 0, 0⟩

/-- `_route_path_distance_m(route, source_stop, dest_stop)` from
`transport/views.py`.  `stops` is the route's queryset ordered by
`('order', 'id')`; `stops[i]` of the Python loop becomes `stops.getD i stop0`
(all loop indices are in range). -/
noncomputable def route_path_distance_m (stops : List Stop) (src dst : Stop) : ℝ :=
  match stops with
  | [] => dpt src dst
  | _ :: _ =>
    match idToIndex stops src.id, idToIndex stops dst.id with
    | some i, some j =>
      if j ≤ i then dpt src dst
      else ((List.range (j - i)).map
        (fun k => dpt (stops.getD (i + k) stop0) (stops.getD (i + k + 1) stop0))).sum
    | _, _ => dpt src dst

/-- Python `int(x)` on a float: truncation toward zero. -/
noncomputable def truncInt (x : ℝ) : ℤ := if x < 0 then ⌈x⌉ else ⌊x⌋

/-- Python one-argument `round(x)`: nearest integer, ties to even. -/
noncomputable def pyRound (x : ℝ) : ℤ :=
  if x - ⌊x⌋ < 1/2 then ⌊x⌋
  else if 1/2 < x - ⌊x⌋ then ⌊x⌋ + 1
  else if Even ⌊x⌋ then ⌊x⌋ else ⌊x⌋ + 1

/-- The ETA computation of `get_bus_location` (`transport/views.py`): given
the `(next_stop, dist_to_next_m, _)` of `_route_remaining_distance_m` and the
stored speed, `eta_seconds = int(dist/speed)` and
`eta_minutes = int(round(eta_seconds / 60))` when a next stop exists, the
distance is not `None` and `speed >= 0.5`; both `None` otherwise. -/
noncomputable def etaFields (nxt : Option Stop) (dist : Option ℝ) (speed : ℝ) :
    Option ℤ × Option ℤ :=
  match nxt, dist with
  | some _, some d =>
    if 0.5 ≤ speed then
      let es := truncInt (d / speed)
      (some es, some (pyRound ((es : ℝ) / 60)))
    else (none, none)
  | _, _ => (none, none)

/-- A `BusTrip` row of `transport/models.py` for one bus: autoincrement id,
`start_time`, nullable `end_time` (times as rational seconds). -/
structure BusTrip where
  id : ℕ
  start : ℚ
  endTime : Option ℚ
  deriving DecidableEq

/-- The trip-related persistent state of one bus: its `BusTrip` rows plus the
legacy `Bus.trip_active` / `Bus.trip_start_time` fields. -/
structure TripState where
  trips : List BusTrip
  trip_active : Bool
  trip_start_time : Option ℚ
  deriving DecidableEq

/-- `BusTrip.objects.filter(bus=bus, end_time__isnull=True)`. -/
def openTrips (ts : List BusTrip) : List BusTrip :=
  ts.filter (fun t => t.endTime.isNone)

/-- Number of open (end_time IS NULL) trip rows. -/
def openCount (ts : List BusTrip) : ℕ := (openTrips ts).length

/-- One comparison step of `order_by('-start_time', '-id').first()`: keep the
trip later in the lexicographic `(start_time, id)` order. -/
def pickLater (acc : Option BusTrip) (t : BusTrip) : Option BusTrip :=
  match acc with
  | none => some t
  | some b =>
    if b.start < t.start ∨ (b.start = t.start ∧ b.id < t.id) then some t else some b

/-- `filter(end_time__isnull=True).order_by('-start_time', '-id').first()`:
the open trip maximal in the lexicographic `(start_time, id)` order, `none`
when no open trip exists. -/
def latestOpen (ts : List BusTrip) : Option BusTrip :=
  (openTrips ts).foldl pickLater none

/-- A fresh autoincrement id: strictly larger than every existing id. -/
def freshId (ts : List BusTrip) : ℕ := (ts.map (fun t => t.id)).foldl max 0 + 1

/-- `open_trip.end_time = now; open_trip.save(...)`: a row update closing the
trip with id `i`. -/
def closeRow (i : ℕ) (now : ℚ) (t : BusTrip) : BusTrip :=
  if t.id = i then { t with endTime := some now } else t

/-- `start_trip(bus_id)` from `transport/views.py` (the authorized path):
close the latest open trip if one exists, create a new open trip starting
now, and set the legacy flags. -/
def start_trip (st : TripState) (now : ℚ) : TripState :=
  let ts :=
    match latestOpen st.trips with
    | some o => st.trips.map (closeRow o.id now)
    | none => st.trips
  { trips := ⟨freshId st.trips, now, none⟩ :: ts
    trip_active := true
    trip_start_time := some now }

/-- `end_trip(bus_id)` from `transport/views.py` (the authorized path): close
the latest open trip; when none exists but the legacy `trip_active` flag is
set, create an already-closed trip covering the legacy start time; clear
`trip_active`. -/
def end_trip (st : TripState) (now : ℚ) : TripState :=
  match latestOpen st.trips with
  | some o =>
    { trips := st.trips.map (closeRow o.id now)
      trip_active := false
      trip_start_time := st.trip_start_time }
  | none =>
    if st.trip_active then
      let start := st.trip_start_time.getD now
      { trips := ⟨freshId st.trips, start, some now⟩ :: st.trips
        trip_active := false
        trip_start_time := some start }
    else
      { trips := st.trips
        trip_active := false
        trip_start_time := st.trip_start_time }

/-- The lazy backward-compat trip creation performed identically by
`driver_dashboard` and `driver_trip_summary` (`transport/views.py`): when
`bus.trip_active` is set but no open `BusTrip` row exists, create an open
row starting at the legacy start time (defaulting to now); otherwise change
nothing. -/
def ensure_trip_row (st : TripState) (now : ℚ) : TripState :=
  if st.trip_active then
    match latestOpen st.trips with
    | some _ => st
    | none =>
      let start := st.trip_start_time.getD now
      { trips := ⟨freshId st.trips, start, none⟩ :: st.trips
        trip_active := true
        trip_start_time := some start }
  else st

/-- The trip-accounting invariant: trip ids are distinct (autoincrement
primary key) and at most one open trip row exists for the bus. -/
def TripInv (st : TripState) : Prop :=
  (st.trips.map (fun t => t.id)).Nodup ∧ openCount st.trips ≤ 1

instance : DecidablePred TripInv := fun st => by
  unfold TripInv
  infer_instance

lemma roundHalfEven_intCast (n : ℤ) : roundHalfEven (n : ℚ) = n := by
  unfold roundHalfEven
  rw [Int.floor_intCast]
  norm_num

lemma quantize01_intCast (n : ℤ) : quantize01 (n : ℚ) = ⟨(n : ℚ), -2⟩ := by
  unfold quantize01
  rw [show ((n : ℚ) * 100) = ((n * 100 : ℤ) : ℚ) by push_cast; ring, roundHalfEven_intCast]
  have h : ((n * 100 : ℤ) : ℚ) / 100 = (n : ℚ) := by
    push_cast
    field_simp
  rw [h]

lemma fare_le_base (d : ℚ) (h : d ≤ 2500) : fare_from_distance_m (some d) = ⟨10, 0⟩ := by
  have hk : d / 1000 ≤ 5 / 2 := by
    rw [div_le_iff₀ (by norm_num : (0:ℚ) < 1000)]
    linarith
  simp [fare_from_distance_m, hk]

lemma fare_gt_base (d : ℚ) (h : 2500 < d) :
    fare_from_distance_m (some d) = ⟨10 + (⌈d / 1000 - 5 / 2⌉ : ℤ), -2⟩ := by
  have hk : ¬ (d / 1000 ≤ 5 / 2) := by
    rw [not_le, lt_div_iff₀ (by norm_num : (0:ℚ) < 1000)]
    linarith
  have hc : (10 : ℚ) + (⌈d / 1000 - 5 / 2⌉ : ℚ) = ((10 + ⌈d / 1000 - 5 / 2⌉ : ℤ) : ℚ) := by
    push_cast
    ring
  simp only [fare_from_distance_m, hk, if_false]
  rw [hc, quantize01_intCast]

/-- C1: the fare is 10.00 for distances up to 2500 m and
10.00 + ⌈d/1000 − 2.5⌉ beyond, each started kilometre past the 2.5 km base
charged as one full unit. -/
theorem C1_fare_tiers (d : ℚ) :
    (d ≤ 2500 → (fare_from_distance_m (some d)).val = 10) ∧
    (2500 < d → (fare_from_distance_m (some d)).val = 10 + (⌈d / 1000 - 5 / 2⌉ : ℤ)) := by
  constructor
  · intro h
    rw [fare_le_base d h]
  · intro h
    rw [fare_gt_base d h]

/-- C1 witness: a 2.4 km path costs 10.00 and a 3.4 km path costs 11.00. -/
theorem C1_fare_tiers_witness :
    ((2400 : ℚ) ≤ 2500 ∧ (fare_from_distance_m (some 2400)).val = 10) ∧
    ((2500 : ℚ) < 3400 ∧ (fare_from_distance_m (some 3400)).val = 11) := by
  refine ⟨⟨by norm_num, (C1_fare_tiers 2400).1 (by norm_num)⟩,
    ⟨by norm_num, ?_⟩⟩
  rw [(C1_fare_tiers 3400).2 (by norm_num)]
  rw [show (3400 : ℚ) / 1000 - 5 / 2 = 9 / 10 by norm_num]
  rw [show (⌈(9 / 10 : ℚ)⌉ : ℤ) = 1 by
    rw [Int.ceil_eq_iff]
    norm_num]
  norm_num

/-- C8: the fare is monotonically non-decreasing in the distance. -/
theorem C8_fare_monotone (d1 d2 : ℚ) (h : d1 ≤ d2) :
    (fare_from_distance_m (some d1)).val ≤ (fare_from_distance_m (some d2)).val := by
  by_cases h1 : d1 ≤ 2500
  · rw [fare_le_base d1 h1]
    by_cases h2 : d2 ≤ 2500
    · rw [fare_le_base d2 h2]
    · rw [fare_gt_base d2 (not_le.mp h2)]
      have : (1 : ℤ) ≤ ⌈d2 / 1000 - 5 / 2⌉ := by
        rw [Int.one_le_ceil_iff]
        have := not_le.mp h2
        rw [sub_pos, lt_div_iff₀ (by norm_num : (0:ℚ) < 1000)]
        linarith
      have : (1 : ℚ) ≤ (⌈d2 / 1000 - 5 / 2⌉ : ℚ) := by exact_mod_cast this
      simp only [Dec.val]
      linarith
  · have h1' := not_le.mp h1
    have h2' : 2500 < d2 := lt_of_lt_of_le h1' h
    rw [fare_gt_base d1 h1', fare_gt_base d2 h2']
    simp only [Dec.val]
    have : ⌈d1 / 1000 - 5 / 2⌉ ≤ ⌈d2 / 1000 - 5 / 2⌉ := by
      apply Int.ceil_le_ceil
      have : d1 / 1000 ≤ d2 / 1000 :=
        (div_le_div_iff_of_pos_right (by norm_num : (0:ℚ) < 1000)).mpr h
      linarith
    have : (⌈d1 / 1000 - 5 / 2⌉ : ℚ) ≤ (⌈d2 / 1000 - 5 / 2⌉ : ℚ) := by exact_mod_cast this
    linarith

/-- C8 witness: fare(2400) ≤ fare(3400). -/
theorem C8_fare_monotone_witness :
    (2400 : ℚ) ≤ 3400 ∧
      (fare_from_distance_m (some 2400)).val ≤ (fare_from_distance_m (some 3400)).val :=
  ⟨by norm_num, C8_fare_monotone 2400 3400 (by norm_num)⟩


/-- C7 counterexample: the claim "every returned fare is quantized to exactly
2 decimal places" is false — for a 1000 m distance the base-fare branch
returns `Decimal('10')` with decimal exponent 0, not a 2-decimal-place
quantized value (exponent -2). -/
theorem C7_counterexample :
    (fare_from_distance_m (some 1000)).exp = 0 ∧ (0 : ℤ) ≠ -2 := by
  constructor
  · rw [fare_le_base 1000 (by norm_num)]
  · decide

/-- C7 (amended): the fare function is total (never throws): malformed input
(`none`, the `try/except` path) and any distance at most 2500 m — in
particular every negative distance — return the base fare `Decimal('10')`;
the extra-distance branch is quantized to exactly 2 decimal places (decimal
exponent -2); and every returned fare value is an integral multiple of 0.01.
The base-fare branches, however, return the unquantized `Decimal('10')`
(exponent 0). -/
theorem C7_fare_total :
    fare_from_distance_m none = ⟨10, 0⟩ ∧
    (∀ d : ℚ, d < 0 → fare_from_distance_m (some d) = ⟨10, 0⟩) ∧
    (∀ d : ℚ, 2500 < d → (fare_from_distance_m (some d)).exp = -2) ∧
    (∀ x : Option ℚ, ∃ k : ℤ, (fare_from_distance_m x).val = (k : ℚ) / 100) := by
  refine ⟨rfl, fun d hd => fare_le_base d (by linarith), fun d hd => by rw [fare_gt_base d hd],
    fun x => ?_⟩
  match x with
  | none =>
    exact ⟨1000, by norm_num [fare_from_distance_m]⟩
  | some d =>
    by_cases h : d ≤ 2500
    · refine ⟨1000, ?_⟩
      rw [fare_le_base d h]
      norm_num
    · refine ⟨1000 + 100 * ⌈d / 1000 - 5 / 2⌉, ?_⟩
      rw [fare_gt_base d (not_le.mp h)]
      push_cast
      ring

/-- C7 witness: a malformed distance and the negative distance -5 both give
the base fare; a 3000 m fare is quantized to exponent -2; the 3000 m fare
value is a multiple of 0.01. -/
theorem C7_fare_total_witness :
    fare_from_distance_m none = ⟨10, 0⟩ ∧
    ((-5 : ℚ) < 0 ∧ fare_from_distance_m (some (-5)) = ⟨10, 0⟩) ∧
    ((2500 : ℚ) < 3000 ∧ (fare_from_distance_m (some 3000)).exp = -2) ∧
    (∃ k : ℤ, (fare_from_distance_m (some 3000)).val = (k : ℚ) / 100) :=
  ⟨C7_fare_total.1,
   ⟨by norm_num, C7_fare_total.2.1 (-5) (by norm_num)⟩,
   ⟨by norm_num, C7_fare_total.2.2.1 3000 (by norm_num)⟩,
   C7_fare_total.2.2.2 (some 3000)⟩

/-- C9: the great-circle distance function satisfies `distance(a, a) = 0`,
`distance(a, b) = distance(b, a)`, and is always non-negative (and, being a
real number of the embedding, always finite). -/
theorem C9_distance_props (lat1 lon1 lat2 lon2 : ℝ) :
    distance_meters lat1 lon1 lat1 lon1 = 0 ∧
    distance_meters lat1 lon1 lat2 lon2 = distance_meters lat2 lon2 lat1 lon1 ∧
    0 ≤ distance_meters lat1 lon1 lat2 lon2 :=
  ⟨distance_meters_self lat1 lon1, (distance_meters_comm lat1 lon1 lat2 lon2).symm,
    distance_meters_nonneg lat1 lon1 lat2 lon2⟩

/-- C4: when the supplied speed is ≤ 0 (or absent, which defaults to 0), the
stored speed is distance/dt when a previous reading exists and
0.5 s < dt ≤ 120 s, and 0 otherwise (no previous reading, dt ≤ 0.5 s, or
dt > 120 s). -/
theorem C4_speed_estimation (supplied lat lng now plat plng pt : ℝ)
    (hsup : supplied ≤ 0) :
    storedSpeed supplied none lat lng now = 0 ∧
    (0.5 < now - pt → now - pt ≤ 120 →
      storedSpeed supplied (some (plat, plng, pt)) lat lng now =
        distance_meters plat plng lat lng / (now - pt)) ∧
    (now - pt ≤ 0.5 ∨ 120 < now - pt →
      storedSpeed supplied (some (plat, plng, pt)) lat lng now = 0) := by
  have hs : (if supplied < 0 then (0:ℝ) else supplied) ≤ 0 := by
    split_ifs with h
    · exact le_refl 0
    · exact hsup
  refine ⟨?_, ?_, ?_⟩
  · simp only [storedSpeed, if_pos hs]
  · intro h1 h2
    simp only [storedSpeed, if_pos hs, estimate_speed_mps]
    rw [if_neg (by push_neg; constructor <;> linarith)]
    rw [if_neg (not_lt.mpr (distance_meters_nonneg plat plng lat lng))]
  · intro h
    simp only [storedSpeed, if_pos hs, estimate_speed_mps]
    rcases h with h | h
    · rw [if_pos (Or.inl h)]
    · rw [if_pos (Or.inr h)]

/-- C4 witness: with no supplied speed, a second fix 10 s after the first is
assigned speed distance/10 (two fixes at the same point give 0/10 = 0); a fix
0.2 s after the previous one gets speed 0; with no previous reading the speed
is 0. -/
theorem C4_speed_estimation_witness :
    ((0:ℝ) ≤ 0 ∧
      storedSpeed 0 (some (10, 20, 0)) 10 20 10 =
        distance_meters 10 20 10 20 / (10 - 0)) ∧
    storedSpeed 0 (some (10, 20, 0)) 10 20 0.2 = 0 ∧
    storedSpeed 0 none 10 20 5 = 0 :=
  ⟨⟨le_refl 0, (C4_speed_estimation 0 10 20 10 10 20 0 (le_refl 0)).2.1
      (by norm_num) (by norm_num)⟩,
   (C4_speed_estimation 0 10 20 0.2 10 20 0 (le_refl 0)).2.2
      (Or.inl (by norm_num)),
   (C4_speed_estimation 0 10 20 5 10 20 0 (le_refl 0)).1⟩

lemma nearest_foldl_some (lat lng : ℝ) :
    ∀ (xs : List Stop) (b : Stop × ℝ),
      ∃ s d, xs.foldl (nearestStep lat lng) (some b) = some (s, d) ∧
        d ≤ b.2 ∧
        (∀ t ∈ xs, d ≤ distance_meters lat lng t.latitude t.longitude) ∧
        ((s, d) = b ∨ (s ∈ xs ∧ d = distance_meters lat lng s.latitude s.longitude)) := by
  intro xs
  induction xs with
  | nil =>
    intro b
    exact ⟨b.1, b.2, by simp, le_refl _, by simp, Or.inl rfl⟩
  | cons x xs ih =>
    intro b
    by_cases hd : distance_meters lat lng x.latitude x.longitude < b.2
    · obtain ⟨s, d, hf, hle, hall, hor⟩ := ih (x, distance_meters lat lng x.latitude x.longitude)
      refine ⟨s, d, ?_, ?_, ?_, ?_⟩
      · rw [List.foldl_cons, show nearestStep lat lng (some b) x
            = some (x, distance_meters lat lng x.latitude x.longitude) by
          simp [nearestStep, hd]]
        exact hf
      · exact le_trans hle hd.le
      · intro t ht
        rcases List.mem_cons.mp ht with rfl | ht'
        · exact hle
        · exact hall t ht'
      · rcases hor with heq | ⟨hmem, hdist⟩
        · have hs : s = x := congrArg Prod.fst heq
          have hdd : d = distance_meters lat lng x.latitude x.longitude := congrArg Prod.snd heq
          exact Or.inr ⟨hs ▸ List.mem_cons_self x xs, by rw [hdd, hs]⟩
        · exact Or.inr ⟨List.mem_cons_of_mem x hmem, hdist⟩
    · obtain ⟨s, d, hf, hle, hall, hor⟩ := ih b
      refine ⟨s, d, ?_, hle, ?_, ?_⟩
      · rw [List.foldl_cons, show nearestStep lat lng (some b) x = some b by
          simp [nearestStep, hd]]
        exact hf
      · intro t ht
        rcases List.mem_cons.mp ht with rfl | ht'
        · exact le_trans hle (not_lt.mp hd)
        · exact hall t ht'
      · rcases hor with heq | ⟨hmem, hdist⟩
        · exact Or.inl heq
        · exact Or.inr ⟨List.mem_cons_of_mem x hmem, hdist⟩

lemma nearestStop_spec {stops : List Stop} {lat lng : ℝ} {s : Stop} {d : ℝ}
    (h : nearestStop stops lat lng = some (s, d)) :
    s ∈ stops ∧ d = distance_meters lat lng s.latitude s.longitude ∧
    ∀ t ∈ stops, d ≤ distance_meters lat lng t.latitude t.longitude := by
  cases stops with
  | nil => simp [nearestStop] at h
  | cons x xs =>
    obtain ⟨s', d', hf, hle, hall, hor⟩ :=
      nearest_foldl_some lat lng xs (x, distance_meters lat lng x.latitude x.longitude)
    have hx : nearestStop (x :: xs) lat lng
        = xs.foldl (nearestStep lat lng)
            (some (x, distance_meters lat lng x.latitude x.longitude)) := by
      simp [nearestStop, nearestStep]
    rw [hx, hf] at h
    have hsd : s' = s ∧ d' = d := by
      have := Option.some.inj h
      exact ⟨congrArg Prod.fst this, congrArg Prod.snd this⟩
    obtain ⟨rfl, rfl⟩ := hsd
    refine ⟨?_, ?_, ?_⟩
    · rcases hor with heq | ⟨hmem, _⟩
      · have : s' = x := congrArg Prod.fst heq
        rw [this]
        exact List.mem_cons_self x xs
      · exact List.mem_cons_of_mem x hmem
    · rcases hor with heq | ⟨_, hdist⟩
      · have h1 : s' = x := congrArg Prod.fst heq
        have h2 : d' = distance_meters lat lng x.latitude x.longitude := congrArg Prod.snd heq
        rw [h2, h1]
      · exact hdist
    · intro t ht
      rcases List.mem_cons.mp ht with rfl | ht'
      · exact hle
      · exact hall t ht'

/-- C3: after a GPS fix is ingested, `current_stop` becomes the name of the
nearest stop on the route when that nearest stop is strictly closer than
50 m, with a write occurring only when the value differs from the stored one;
when every stop is 50 m or farther the stored value is left unchanged (stale,
never cleared). -/
theorem C3_current_stop_update (stops : List Stop) (lat lng : ℝ) (cur : Option String) :
    (∀ s d, nearestStop stops lat lng = some (s, d) →
       s ∈ stops ∧ d = distance_meters lat lng s.latitude s.longitude ∧
       ∀ t ∈ stops, d ≤ distance_meters lat lng t.latitude t.longitude) ∧
    (∀ s d, nearestStop stops lat lng = some (s, d) → d < 50 →
       (cur ≠ some s.name → updateCurrentStop stops lat lng cur = (some s.name, true)) ∧
       (cur = some s.name → updateCurrentStop stops lat lng cur = (cur, false))) ∧
    ((∀ t ∈ stops, 50 ≤ distance_meters lat lng t.latitude t.longitude) →
       updateCurrentStop stops lat lng cur = (cur, false)) := by
  refine ⟨fun s d h => nearestStop_spec h, fun s d h hd => ?_, fun hfar => ?_⟩
  · constructor
    · intro hne
      simp only [updateCurrentStop, h, if_pos hd, if_pos hne]
    · intro heq
      simp only [updateCurrentStop, h, if_pos hd]
      rw [if_neg (by simp [heq])]
  · cases hn : nearestStop stops lat lng with
    | none => simp [updateCurrentStop, hn]
    | some p =>
      obtain ⟨s, d⟩ := p
      obtain ⟨hmem, hdist, -⟩ := nearestStop_spec hn
      have h50 : ¬ d < 50 := not_lt.mpr (hdist ▸ hfar s hmem)
      simp only [updateCurrentStop, hn, if_neg h50]

/-- C3 witness: a fix taken exactly at the single stop of a route (distance 0,
hence within 50 m) with no stored `current_stop` writes that stop's name;
a route with no stops leaves `current_stop` unchanged. -/
theorem C3_current_stop_update_witness :
    ((none : Option String) ≠ some "A" ∧
      updateCurrentStop [⟨1, "A", 0, 10, 20⟩] 10 20 none = (some "A", true)) ∧
    updateCurrentStop [] 10 20 (some "B") = (some "B", false) := by
  constructor
  · refine ⟨by simp, ?_⟩
    have hn : nearestStop [(⟨1, "A", 0, 10, 20⟩ : Stop)] 10 20
        = some (⟨1, "A", 0, 10, 20⟩, distance_meters 10 20 10 20) := by
      simp [nearestStop, nearestStep]
    exact ((C3_current_stop_update [⟨1, "A", 0, 10, 20⟩] 10 20 none).2.1
      ⟨1, "A", 0, 10, 20⟩ (distance_meters 10 20 10 20) hn
      (by rw [distance_meters_self]; norm_num)).1 (by simp)
  · exact (C3_current_stop_update [] 10 20 (some "B")).2.2 (by simp)

/-- C6: with a non-empty route, `_route_remaining_distance_m` returns the
route's first stop and the direct distance (as both distances) when no
current stop is recorded or the recorded name matches no stop; `(none, 0, 0)`
when no stop has order strictly greater than the current stop's; and
otherwise the first stop with strictly greater order together with the
distance to it and that distance plus the consecutive stop-to-stop sum
through the route's terminal stop. -/
theorem C6_next_stop_and_remaining (stops : List Stop) (cur : Option String)
    (lat lng : ℝ) (s0 : Stop) (tl : List Stop) (hst : stops = s0 :: tl) :
    (findCurrent stops cur = none →
      route_remaining_distance_m stops cur lat lng =
        (some s0, some (distance_meters lat lng s0.latitude s0.longitude),
         some (distance_meters lat lng s0.latitude s0.longitude))) ∧
    (∀ c, findCurrent stops cur = some c →
      stops.filter (fun s => decide (c.order < s.order)) = [] →
      route_remaining_distance_m stops cur lat lng = (none, some 0, some 0)) ∧
    (∀ c next rest, findCurrent stops cur = some c →
      stops.filter (fun s => decide (c.order < s.order)) = next :: rest →
      route_remaining_distance_m stops cur lat lng =
        (some next, some (distance_meters lat lng next.latitude next.longitude),
         some (distance_meters lat lng next.latitude next.longitude +
           consecSum (next :: rest)))) := by
  subst hst
  refine ⟨fun hfc => ?_, fun c hfc hflt => ?_, fun c next rest hfc hflt => ?_⟩
  · simp [route_remaining_distance_m, hfc]
  · simp [route_remaining_distance_m, hfc, hflt]
  · simp [route_remaining_distance_m, hfc, hflt, consecSum]

/-- C6 witness: a vehicle with no recorded current stop on a one-stop route,
positioned exactly at that stop, gets the first stop as next stop with both
distances equal to the direct distance 0. -/
theorem C6_next_stop_and_remaining_witness :
    findCurrent [⟨1, "A", 0, 10, 20⟩] none = none ∧
    route_remaining_distance_m [⟨1, "A", 0, 10, 20⟩] none 10 20 =
      (some ⟨1, "A", 0, 10, 20⟩, some 0, some 0) := by
  refine ⟨rfl, ?_⟩
  have h := (C6_next_stop_and_remaining [⟨1, "A", 0, 10, 20⟩] none 10 20
    ⟨1, "A", 0, 10, 20⟩ [] rfl).1 rfl
  rw [h, distance_meters_self]

lemma idToIndexAux_bound (sid : ℕ) :
    ∀ (l : List Stop) (k j : ℕ), idToIndexAux sid l k = some j → k ≤ j ∧ j < k + l.length := by
  intro l
  induction l with
  | nil =>
    intro k j h
    simp [idToIndexAux] at h
  | cons s rest ih =>
    intro k j h
    have hdef : idToIndexAux sid (s :: rest) k
        = match idToIndexAux sid rest (k + 1) with
          | some j' => some j'
          | none => if s.id = sid then some k else none := rfl
    rw [hdef] at h
    cases hr : idToIndexAux sid rest (k + 1) with
    | some j' =>
      rw [hr] at h
      have hj' := ih (k + 1) j' hr
      have : j' = j := Option.some.inj h
      simp only [List.length_cons]
      omega
    | none =>
      rw [hr] at h
      by_cases hs : s.id = sid
      · rw [if_pos hs] at h
        have : k = j := Option.some.inj h
        simp only [List.length_cons]
        omega
      · rw [if_neg hs] at h
        exact absurd h (by simp)

lemma rangeSum_eq_consecSum (stops : List Stop) :
    ∀ (n i : ℕ), i + n < stops.length →
      ((List.range n).map
        (fun k => dpt (stops.getD (i + k) stop0) (stops.getD (i + k + 1) stop0))).sum
      = consecSum ((stops.drop i).take (n + 1)) := by
  intro n
  induction n with
  | zero =>
    intro i hi
    have hii : i < stops.length := by omega
    rw [List.drop_eq_getElem_cons hii, show (1 : ℕ) = 0 + 1 from rfl, List.take_succ_cons]
    simp [consecSum, railSum]
  | succ n ih =>
    intro i hi
    have hi0 : i < stops.length := by omega
    have hi1 : i + 1 < stops.length := by omega
    rw [List.range_succ_eq_map, List.map_cons, List.sum_cons, List.map_map]
    have hfun : ((fun k => dpt (stops.getD (i + k) stop0) (stops.getD (i + k + 1) stop0))
          ∘ Nat.succ)
        = fun k => dpt (stops.getD (i + 1 + k) stop0) (stops.getD (i + 1 + k + 1) stop0) := by
      funext k
      have e1 : i + Nat.succ k = i + 1 + k := by omega
      have e2 : i + Nat.succ k + 1 = i + 1 + k + 1 := by omega
      simp only [Function.comp_apply, e1, e2]
    rw [hfun, ih (i + 1) (by omega)]
    rw [List.drop_eq_getElem_cons hi0, List.drop_eq_getElem_cons hi1]
    rw [List.take_succ_cons, List.take_succ_cons]
    simp only [consecSum, railSum, Nat.add_zero]
    rw [List.getD_eq_getElem _ _ hi0, List.getD_eq_getElem _ _ hi1]

/-- The queryset order `order_by('order', 'id')`: ascending stop order with
ties broken by ascending id. -/
def stopLE (a b : Stop) : Prop :=
  a.order < b.order ∨ (a.order = b.order ∧ a.id ≤ b.id)

/-- C2: on a route stop list ordered by `order` (ties by id) containing both
stops with the destination at a strictly larger index, the path distance is
the sum of great-circle distances between each adjacent pair of stops from
the source's index through the destination's index (the walked window of the
list), not the direct point-to-point distance; with an empty stop list it
degrades to the direct distance between the two stops. -/
theorem C2_path_distance (stops : List Stop) (src dst : Stop) :
    (stops.Sorted stopLE →
      ∀ i j, idToIndex stops src.id = some i → idToIndex stops dst.id = some j → i < j →
        route_path_distance_m stops src dst
          = consecSum ((stops.drop i).take (j - i + 1))) ∧
    (stops = [] → route_path_distance_m stops src dst = dpt src dst) := by
  constructor
  · intro _ i j hi hj hij
    have hjlen : j < stops.length := by
      have h := idToIndexAux_bound dst.id stops 0 j hj
      omega
    cases stops with
    | nil => simp [idToIndex, idToIndexAux] at hj
    | cons s tl =>
      simp only [route_path_distance_m, hi, hj]
      rw [if_neg (by omega)]
      have h := rangeSum_eq_consecSum (s :: tl) (j - i) i (by omega)
      rw [show j - i + 1 = j - i + 1 from rfl] at h
      rw [h]
  · rintro rfl
    simp [route_path_distance_m]

/-- C2 witness: a two-stop route sorted by order, source at index 0 and
destination at index 1; the path distance is the adjacent-pair sum over the
walked window. -/
theorem C2_path_distance_witness :
    List.Sorted stopLE [⟨1, "A", 0, 10, 20⟩, ⟨2, "B", 1, 30, 40⟩] ∧
    idToIndex [⟨1, "A", 0, 10, 20⟩, ⟨2, "B", 1, 30, 40⟩] 1 = some 0 ∧
    idToIndex [⟨1, "A", 0, 10, 20⟩, ⟨2, "B", 1, 30, 40⟩] 2 = some 1 ∧
    route_path_distance_m [⟨1, "A", 0, 10, 20⟩, ⟨2, "B", 1, 30, 40⟩]
        ⟨1, "A", 0, 10, 20⟩ ⟨2, "B", 1, 30, 40⟩
      = consecSum [⟨1, "A", 0, 10, 20⟩, ⟨2, "B", 1, 30, 40⟩] := by
  refine ⟨?_, rfl, rfl, ?_⟩
  · simp [List.sorted_cons, stopLE]
  · exact (C2_path_distance [⟨1, "A", 0, 10, 20⟩, ⟨2, "B", 1, 30, 40⟩]
      ⟨1, "A", 0, 10, 20⟩ ⟨2, "B", 1, 30, 40⟩).1
      (by simp [List.sorted_cons, stopLE]) 0 1 rfl rfl (by norm_num)

lemma etaFields_none_left (dist : Option ℝ) (speed : ℝ) :
    etaFields none dist speed = (none, none) := by
  cases dist <;> rfl

lemma rrd_dist_of_next {stops : List Stop} {cur : Option String} {lat lng : ℝ} {s : Stop}
    (h : (route_remaining_distance_m stops cur lat lng).1 = some s) :
    ∃ d, (route_remaining_distance_m stops cur lat lng).2.1 = some d ∧ 0 ≤ d := by
  cases stops with
  | nil => simp [route_remaining_distance_m] at h
  | cons s0 tl =>
    cases hfc : findCurrent (s0 :: tl) cur with
    | none =>
      refine ⟨distance_meters lat lng s0.latitude s0.longitude, ?_,
        distance_meters_nonneg lat lng s0.latitude s0.longitude⟩
      simp [route_remaining_distance_m, hfc]
    | some c =>
      cases hflt : (s0 :: tl).filter (fun s => decide (c.order < s.order)) with
      | nil =>
        exfalso
        simp [route_remaining_distance_m, hfc, hflt] at h
      | cons next rest =>
        refine ⟨distance_meters lat lng next.latitude next.longitude, ?_,
          distance_meters_nonneg lat lng next.latitude next.longitude⟩
        simp [route_remaining_distance_m, hfc, hflt]

/-- C5 (amended): `etaSeconds` and `etaMinutes` are non-null exactly when a
next stop exists and the speed is at least 0.5 m/s; in that case
`etaSeconds = ⌊distanceToNextStop / speed⌋` — the quotient truncated to an
integer by Python's `int()`, not the exact quotient — and
`etaMinutes = round(etaSeconds / 60)`. -/
theorem C5_eta (stops : List Stop) (cur : Option String) (lat lng speed : ℝ) :
    ((etaFields (route_remaining_distance_m stops cur lat lng).1
        (route_remaining_distance_m stops cur lat lng).2.1 speed).1 ≠ none ↔
      ((route_remaining_distance_m stops cur lat lng).1 ≠ none ∧ 0.5 ≤ speed)) ∧
    ((etaFields (route_remaining_distance_m stops cur lat lng).1
        (route_remaining_distance_m stops cur lat lng).2.1 speed).2 ≠ none ↔
      ((route_remaining_distance_m stops cur lat lng).1 ≠ none ∧ 0.5 ≤ speed)) ∧
    (∀ s d, (route_remaining_distance_m stops cur lat lng).1 = some s →
      (route_remaining_distance_m stops cur lat lng).2.1 = some d → 0.5 ≤ speed →
      etaFields (route_remaining_distance_m stops cur lat lng).1
          (route_remaining_distance_m stops cur lat lng).2.1 speed
        = (some ⌊d / speed⌋, some (pyRound ((⌊d / speed⌋ : ℤ) / 60 : ℝ)))) := by
  have hval : ∀ s d, (route_remaining_distance_m stops cur lat lng).1 = some s →
      (route_remaining_distance_m stops cur lat lng).2.1 = some d → 0.5 ≤ speed →
      etaFields (route_remaining_distance_m stops cur lat lng).1
          (route_remaining_distance_m stops cur lat lng).2.1 speed
        = (some ⌊d / speed⌋, some (pyRound ((⌊d / speed⌋ : ℤ) / 60 : ℝ))) := by
    intro s d h1 h2 hsp
    obtain ⟨d', hd', hd'nonneg⟩ := rrd_dist_of_next h1
    have hdd : d' = d := by
      rw [hd'] at h2
      exact Option.some.inj h2
    subst hdd
    rw [h1, hd']
    simp only [etaFields, if_pos hsp]
    have htr : truncInt (d' / speed) = ⌊d' / speed⌋ := by
      unfold truncInt
      rw [if_neg (not_lt.mpr (div_nonneg hd'nonneg (by linarith)))]
    rw [htr]
  refine ⟨?_, ?_, hval⟩ <;>
  · cases h1 : (route_remaining_distance_m stops cur lat lng).1 with
    | none =>
      rw [etaFields_none_left]
      simp
    | some s =>
      obtain ⟨d, hd, -⟩ := rrd_dist_of_next h1
      rw [hd]
      simp only [etaFields]
      by_cases hsp : (0.5 : ℝ) ≤ speed
      · rw [if_pos hsp]
        simp [hsp]
      · rw [if_neg hsp]
        simp [hsp]

/-- C5 counterexample: with the next stop 105 m away and speed 10 m/s the
code stores etaSeconds = 10 (`int(105/10)`), whereas the claimed
`etaSeconds = distanceToNextStop / speed` would be 10.5: the claim's exact
equation is false. -/
theorem C5_counterexample :
    (etaFields (some ⟨1, "A", 0, 0, 0⟩) (some 105) 10).1 = some 10 ∧
    (105 : ℝ) / 10 ≠ ((10 : ℤ) : ℝ) := by
  constructor
  · simp only [etaFields, if_pos (by norm_num : (0.5 : ℝ) ≤ 10)]
    have : truncInt ((105 : ℝ) / 10) = 10 := by
      unfold truncInt
      rw [if_neg (by norm_num)]
      rw [Int.floor_eq_iff]
      norm_num
    rw [this]
  · norm_num

/-- C5 witness: a vehicle at its single route stop (distance 0) moving at
10 m/s gets etaSeconds = 0 and etaMinutes = 0; both are non-null since a next
stop exists and the speed passes the 0.5 m/s threshold. -/
theorem C5_eta_witness :
    (route_remaining_distance_m [⟨1, "A", 0, 10, 20⟩] none 10 20).1
        = some ⟨1, "A", 0, 10, 20⟩ ∧
    (route_remaining_distance_m [⟨1, "A", 0, 10, 20⟩] none 10 20).2.1 = some 0 ∧
    (0.5 : ℝ) ≤ 10 ∧
    etaFields (route_remaining_distance_m [⟨1, "A", 0, 10, 20⟩] none 10 20).1
        (route_remaining_distance_m [⟨1, "A", 0, 10, 20⟩] none 10 20).2.1 10
      = (some 0, some 0) := by
  have hr : route_remaining_distance_m [⟨1, "A", 0, 10, 20⟩] none 10 20
      = (some ⟨1, "A", 0, 10, 20⟩, some 0, some 0) := by
    simp [route_remaining_distance_m, findCurrent, distance_meters_self]
  refine ⟨by rw [hr], by rw [hr], by norm_num, ?_⟩
  have h := (C5_eta [⟨1, "A", 0, 10, 20⟩] none 10 20 10).2.2
    ⟨1, "A", 0, 10, 20⟩ 0 (by rw [hr]) (by rw [hr]) (by norm_num)
  rw [h]
  norm_num [pyRound]

lemma le_foldl_max_init : ∀ (l : List ℕ) (a : ℕ), a ≤ l.foldl max a := by
  intro l
  induction l with
  | nil => intro a; exact le_refl a
  | cons b l ih =>
    intro a
    rw [List.foldl_cons]
    exact le_trans (le_max_left a b) (ih (max a b))

lemma mem_le_foldl_max : ∀ (l : List ℕ) (a x : ℕ), x ∈ l → x ≤ l.foldl max a := by
  intro l
  induction l with
  | nil =>
    intro a x hx
    cases hx
  | cons b l ih =>
    intro a x hx
    rw [List.foldl_cons]
    rcases List.mem_cons.mp hx with rfl | hx'
    · exact le_trans (le_max_right a x) (le_foldl_max_init l (max a x))
    · exact ih (max a b) x hx'

lemma freshId_not_mem (ts : List BusTrip) : freshId ts ∉ ts.map (fun t => t.id) := by
  intro hmem
  have h := mem_le_foldl_max (ts.map (fun t => t.id)) 0 (freshId ts) hmem
  unfold freshId at h
  omega

lemma closeRow_id (i : ℕ) (now : ℚ) (t : BusTrip) : (closeRow i now t).id = t.id := by
  unfold closeRow
  split <;> rfl

lemma map_closeRow_ids (ts : List BusTrip) (i : ℕ) (now : ℚ) :
    (ts.map (closeRow i now)).map (fun t => t.id) = ts.map (fun t => t.id) := by
  rw [List.map_map]
  exact List.map_congr_left (fun t _ => closeRow_id i now t)

lemma map_closeRow_of_not_mem (i : ℕ) (now : ℚ) :
    ∀ (l : List BusTrip), (∀ u ∈ l, u.id ≠ i) → l.map (closeRow i now) = l := by
  intro l
  induction l with
  | nil => intro _; rfl
  | cons u rest ih =>
    intro h
    rw [List.map_cons]
    rw [show closeRow i now u = u by
      unfold closeRow
      rw [if_neg (h u (List.mem_cons_self u rest))]]
    rw [ih (fun v hv => h v (List.mem_cons_of_mem u hv))]

lemma openCount_cons (t : BusTrip) (l : List BusTrip) :
    openCount (t :: l) = (if t.endTime.isNone then 1 else 0) + openCount l := by
  unfold openCount openTrips
  rw [List.filter_cons]
  split_ifs with h
  · rw [List.length_cons]
    omega
  · omega

lemma openCount_close (now : ℚ) :
    ∀ (ts : List BusTrip) (o : BusTrip),
      (ts.map (fun t => t.id)).Nodup → o ∈ ts → o.endTime = none →
      openCount (ts.map (closeRow o.id now)) + 1 = openCount ts := by
  intro ts
  induction ts with
  | nil =>
    intro o _ ho _
    cases ho
  | cons t rest ih =>
    intro o hnd ho hopen
    rw [List.map_cons] at hnd ⊢
    have hnotin : t.id ∉ rest.map (fun t => t.id) := (List.nodup_cons.mp hnd).1
    have hnd' : (rest.map (fun t => t.id)).Nodup := (List.nodup_cons.mp hnd).2
    rw [openCount_cons, openCount_cons]
    rcases List.mem_cons.mp ho with rfl | hmem
    · rw [show closeRow o.id now o = { o with endTime := some now } by
        unfold closeRow
        rw [if_pos rfl]]
      rw [map_closeRow_of_not_mem o.id now rest (fun u hu hequ =>
        hnotin (hequ ▸ List.mem_map_of_mem (fun t => t.id) hu))]
      simp [hopen]
      omega
    · have hneq : t.id ≠ o.id := fun he =>
        hnotin (he ▸ List.mem_map_of_mem (fun t => t.id) hmem)
      rw [show closeRow o.id now t = t by
        unfold closeRow
        rw [if_neg hneq]]
      have h := ih o hnd' hmem hopen
      omega

lemma pickLater_none (t : BusTrip) : pickLater none t = some t := rfl

lemma pickLater_some (b t : BusTrip) :
    pickLater (some b) t
      = if b.start < t.start ∨ (b.start = t.start ∧ b.id < t.id) then some t else some b := rfl

lemma pickLater_foldl_some :
    ∀ (l : List BusTrip) (b : BusTrip),
      ∃ r, l.foldl pickLater (some b) = some r ∧ (r = b ∨ r ∈ l) := by
  intro l
  induction l with
  | nil =>
    intro b
    exact ⟨b, rfl, Or.inl rfl⟩
  | cons x xs ih =>
    intro b
    rw [List.foldl_cons]
    by_cases hc : b.start < x.start ∨ (b.start = x.start ∧ b.id < x.id)
    · rw [pickLater_some, if_pos hc]
      obtain ⟨r, hr, ho⟩ := ih x
      exact ⟨r, hr, Or.inr (ho.elim (fun h => h ▸ List.mem_cons_self x xs)
        (fun h => List.mem_cons_of_mem x h))⟩
    · rw [pickLater_some, if_neg hc]
      obtain ⟨r, hr, ho⟩ := ih b
      exact ⟨r, hr, ho.elim Or.inl (fun h => Or.inr (List.mem_cons_of_mem x h))⟩

lemma latestOpen_mem {ts : List BusTrip} {o : BusTrip} (h : latestOpen ts = some o) :
    o ∈ ts ∧ o.endTime = none := by
  unfold latestOpen at h
  cases hop : openTrips ts with
  | nil =>
    rw [hop] at h
    cases h
  | cons x xs =>
    rw [hop, List.foldl_cons, pickLater_none] at h
    obtain ⟨r, hr, ho⟩ := pickLater_foldl_some xs x
    rw [hr] at h
    have hro := Option.some.inj h
    subst hro
    have hmem : r ∈ openTrips ts := by
      rw [hop]
      exact ho.elim (fun h => h ▸ List.mem_cons_self x xs)
        (fun h => List.mem_cons_of_mem x h)
    unfold openTrips at hmem
    have hm := List.mem_filter.mp hmem
    exact ⟨hm.1, Option.isNone_iff_eq_none.mp hm.2⟩

lemma latestOpen_none {ts : List BusTrip} (h : latestOpen ts = none) :
    openCount ts = 0 := by
  unfold latestOpen at h
  cases hop : openTrips ts with
  | nil =>
    unfold openCount
    rw [hop]
    rfl
  | cons x xs =>
    rw [hop, List.foldl_cons, pickLater_none] at h
    obtain ⟨r, hr, -⟩ := pickLater_foldl_some xs x
    rw [hr] at h
    cases h

/-- C10: each trip operation preserves "at most one open BusTrip row per
bus" (together with distinctness of the autoincrement ids): `start_trip`
closes the open trip before creating a new open one, `end_trip` closes the
open trip (or creates an already-closed row in the legacy flag-only case),
and the lazy backward-compat creation shared by `driver_dashboard` and
`driver_trip_summary` creates an open trip only when none exists. -/
theorem C10_trip_open_invariant (st : TripState) (now : ℚ) (h : TripInv st) :
    TripInv (start_trip st now) ∧ TripInv (end_trip st now) ∧
      TripInv (ensure_trip_row st now) := by
  obtain ⟨hnd, hoc⟩ := h
  refine ⟨?_, ?_, ?_⟩
  · unfold TripInv start_trip
    cases hlo : latestOpen st.trips with
    | some o =>
      obtain ⟨hmem, hopen⟩ := latestOpen_mem hlo
      have hcount := openCount_close now st.trips o hnd hmem hopen
      constructor
      · rw [List.map_cons, map_closeRow_ids]
        exact List.nodup_cons.mpr ⟨freshId_not_mem st.trips, hnd⟩
      · rw [openCount_cons]
        simp only [Option.isNone_none, if_true]
        omega
    | none =>
      have hc0 := latestOpen_none hlo
      constructor
      · rw [List.map_cons]
        exact List.nodup_cons.mpr ⟨freshId_not_mem st.trips, hnd⟩
      · rw [openCount_cons]
        simp only [Option.isNone_none, if_true]
        omega
  · unfold TripInv end_trip
    cases hlo : latestOpen st.trips with
    | some o =>
      obtain ⟨hmem, hopen⟩ := latestOpen_mem hlo
      have hcount := openCount_close now st.trips o hnd hmem hopen
      refine ⟨map_closeRow_ids st.trips o.id now ▸ hnd, ?_⟩
      show openCount (st.trips.map (closeRow o.id now)) ≤ 1
      omega
    | none =>
      have hc0 := latestOpen_none hlo
      cases hact : st.trip_active with
      | true =>
        simp only [hact, if_true]
        constructor
        · rw [List.map_cons]
          exact List.nodup_cons.mpr ⟨freshId_not_mem st.trips, hnd⟩
        · rw [openCount_cons]
          simp only [Option.isNone_some]
          simp only [Bool.false_eq_true, if_false]
          omega
      | false =>
        simp only [hact, if_false]
        exact ⟨hnd, hoc⟩
  · unfold TripInv ensure_trip_row
    cases hact : st.trip_active with
    | true =>
      simp only [hact, if_true]
      cases hlo : latestOpen st.trips with
      | some o => exact ⟨hnd, hoc⟩
      | none =>
        have hc0 := latestOpen_none hlo
        constructor
        · rw [List.map_cons]
          exact List.nodup_cons.mpr ⟨freshId_not_mem st.trips, hnd⟩
        · rw [openCount_cons]
          simp only [Option.isNone_none, if_true]
          omega
    | false =>
      simp only [hact, if_false]
      exact ⟨hnd, hoc⟩

/-- C10 witness: starting, ending, or lazily backfilling a trip from the
empty trip history keeps the at-most-one-open-trip invariant. -/
theorem C10_trip_open_invariant_witness :
    TripInv ⟨[], false, none⟩ ∧
    (TripInv (start_trip ⟨[], false, none⟩ 0) ∧ TripInv (end_trip ⟨[], false, none⟩ 0) ∧
      TripInv (ensure_trip_row ⟨[], false, none⟩ 0)) :=
  ⟨by decide, C10_trip_open_invariant ⟨[], false, none⟩ 0 (by decide)⟩

end Kbus
